import Mathlib

/-!
Shallow embedding of `src/tfrbm/rbm.py` (class `RBM`, TensorFlow 1.x graph
semantics evaluated eagerly on concrete tensors).

Modelling conventions:
* Tensor entries are exact rationals (`ℚ`); the float32 arithmetic of the
  original is modelled exactly, so float-rounding phenomena are out of scope.
* A 2-D tensor is a pair of dimensions together with an entry function; the
  dynamic shape `tf.shape(t)[0]` of the source is the `rows` (resp. `len`)
  field, computed by each operation exactly as TensorFlow computes result
  shapes.
* Transcendental functions used by the source (`tf.nn.sigmoid`, `tf.acos`,
  `tf.sqrt` inside `tf.nn.l2_normalize`, the constant `np.pi`) are carried as
  abstract fields of the configuration record: every theorem below holds for
  an arbitrary interpretation of them, and no claim under study depends on
  their concrete values.
* The stochastic samplers live in `tfrbm/util.py`, which is not part of the
  sources under study; they are modelled from the spec (see the doc comments
  of `sample_bernoulli` and `sample_gaussian`).  The random draws they consume
  are explicit oracle inputs (`Noise`), so a training step is a pure function
  of the state, the batch and the draws.
-/

namespace TFRBM

/-- A 2-D tensor: row/column counts plus an entry function.  Entries outside
the advertised dimensions are irrelevant; all operations below only read
in-range entries. -/
structure T2 where
  rows : ℕ
  cols : ℕ
  e : ℕ → ℕ → ℚ

/-- A 1-D tensor (a bias vector or a row-reduced tensor). -/
structure T1 where
  len : ℕ
  e : ℕ → ℚ

/-- Matrix product, `tf.matmul`: result shape `(A.rows, B.cols)`, contracting
over `A.cols`. -/
def matmul (A B : T2) : T2 :=
  ⟨A.rows, B.cols, fun i j => ∑ k ∈ Finset.range A.cols, A.e i k * B.e k j⟩

/-- Matrix transpose, `tf.transpose`. -/
def transposeT (A : T2) : T2 :=
  ⟨A.cols, A.rows, fun i j => A.e j i⟩

/-- Broadcast addition of a bias row vector to every row, `t + bias`. -/
def addBias (A : T2) (b : T1) : T2 :=
  ⟨A.rows, A.cols, fun i j => A.e i j + b.e j⟩

/-- Elementwise sum of two same-shaped 2-D tensors. -/
def addT (A B : T2) : T2 :=
  ⟨A.rows, A.cols, fun i j => A.e i j + B.e i j⟩

/-- Elementwise sum of two same-shaped 1-D tensors. -/
def addT1 (a b : T1) : T1 :=
  ⟨a.len, fun i => a.e i + b.e i⟩

/-- Elementwise difference, `a - b` on tensors. -/
def subT (A B : T2) : T2 :=
  ⟨A.rows, A.cols, fun i j => A.e i j - B.e i j⟩

/-- Elementwise product, `tf.mul`. -/
def mulT (A B : T2) : T2 :=
  ⟨A.rows, A.cols, fun i j => A.e i j * B.e i j⟩

/-- Apply a scalar function entrywise (used for `tf.nn.sigmoid`,
`tf.square`). -/
def mapT (f : ℚ → ℚ) (A : T2) : T2 :=
  ⟨A.rows, A.cols, fun i j => f (A.e i j)⟩

/-- Column means, `tf.reduce_mean(t, 0)`: result length is the column count,
each entry is the mean over the rows. -/
def reduceMean0 (A : T2) : T1 :=
  ⟨A.cols, fun j => (∑ i ∈ Finset.range A.rows, A.e i j) / (A.rows : ℚ)⟩

/-- Row sums, `tf.reduce_sum(t, 1)`. -/
def reduceSum1 (A : T2) : T1 :=
  ⟨A.rows, fun i => ∑ j ∈ Finset.range A.cols, A.e i j⟩

/-- Mean of all entries of a 1-D tensor, `tf.reduce_mean(v)`. -/
def reduceMeanT1 (v : T1) : ℚ :=
  (∑ i ∈ Finset.range v.len, v.e i) / (v.len : ℚ)

/-- Mean of all entries of a 2-D tensor, `tf.reduce_mean(t)`. -/
def reduceMeanAll (A : T2) : ℚ :=
  (∑ i ∈ Finset.range A.rows, ∑ j ∈ Finset.range A.cols, A.e i j) /
    ((A.rows : ℚ) * (A.cols : ℚ))

/-- Configuration of an `RBM` instance (constructor arguments of
`RBM.__init__`, src/tfrbm/rbm.py:10-20), together with abstract
interpretations of the transcendental functions appearing in the graph. -/
structure RBMCfg where
  n_visible : ℕ
  n_hidden : ℕ
  t_visible : String
  t_hidden : String
  sigma : ℚ
  learning_rate : ℚ
  momentum : ℚ
  err_function : String
  /-- Abstract interpretation of `tf.nn.sigmoid` (transcendental). -/
  sigmoid : ℚ → ℚ
  /-- Abstract interpretation of `tf.acos` (transcendental). -/
  acosFn : ℚ → ℚ
  /-- Abstract interpretation of the square root used inside
  `tf.nn.l2_normalize` (transcendental). -/
  sqrtFn : ℚ → ℚ
  /-- Abstract rational stand-in for the constant `np.pi`. -/
  piQ : ℚ
  /-- The epsilon of `tf.nn.l2_normalize` (squared norms are floored at this
  value before the square root). -/
  l2eps : ℚ

/-- Mutable state of an `RBM` instance: the three model parameters
(src/tfrbm/rbm.py:51-55) and the three momentum accumulators
(src/tfrbm/rbm.py:57-62). -/
structure RBMState where
  w : T2
  visible_bias : T1
  hidden_bias : T1
  delta_w : T2
  delta_visible_bias : T1
  delta_hidden_bias : T1

/-- Random draws consumed by one call to `partial_fit`: a tensor of uniform
draws (or standard-normal draws) for the hidden sampling and one for the
visible reconstruction sampling. -/
structure Noise where
  uh : ℕ → ℕ → ℚ
  uv : ℕ → ℕ → ℚ

/-- Modelled from the spec: `sample_bernoulli` lives in `tfrbm/util.py`,
which is absent from the sources under study.  Spec §4.1: given a probability
tensor, return a same-shaped tensor of 0/1 draws, each entry 1 exactly when
the uniform draw falls below the probability. -/
def sample_bernoulli (p : T2) (u : ℕ → ℕ → ℚ) : T2 :=
  ⟨p.rows, p.cols, fun i j => if u i j < p.e i j then 1 else 0⟩

/-- Modelled from the spec: `sample_gaussian` lives in `tfrbm/util.py`,
which is absent from the sources under study.  Spec §4.1: given a mean tensor
and a scalar standard deviation, draw entrywise from a normal distribution
with that mean and sigma; with `z` the standard-normal draw this is
`mean + sigma * z`. -/
def sample_gaussian (mean : T2) (sigma : ℚ) (z : ℕ → ℕ → ℚ) : T2 :=
  ⟨mean.rows, mean.cols, fun i j => mean.e i j + sigma * z i j⟩

/-! ### The CD-1 training graph (src/tfrbm/rbm.py:70-125) -/

/-- Pre-activation of the hidden layer from the batch,
`tf.matmul(self.x, self.w) + self.hidden_bias` (src/tfrbm/rbm.py:71). -/
def hidden_aux (st : RBMState) (X : T2) : T2 :=
  addBias (matmul X st.w) st.hidden_bias

/-- Hidden probabilities of the positive phase (src/tfrbm/rbm.py:72-77):
sigmoid of the pre-activation for Bernoulli hidden units, the identity for
Gaussian hidden units. -/
def hidden_p (cfg : RBMCfg) (st : RBMState) (X : T2) : T2 :=
  if cfg.t_hidden = "b" then mapT cfg.sigmoid (hidden_aux st X)
  else hidden_aux st X

/-- Stochastic hidden sample of the positive phase (src/tfrbm/rbm.py:74,77). -/
def hidden_s (cfg : RBMCfg) (st : RBMState) (X : T2) (nz : Noise) : T2 :=
  if cfg.t_hidden = "b" then sample_bernoulli (hidden_p cfg st X) nz.uh
  else sample_gaussian (hidden_p cfg st X) cfg.sigma nz.uh

/-- Pre-activation of the visible reconstruction from the hidden sample,
`tf.matmul(hidden_s, tf.transpose(self.w)) + self.visible_bias`
(src/tfrbm/rbm.py:80-81). -/
def visible_recon_aux (cfg : RBMCfg) (st : RBMState) (X : T2) (nz : Noise) : T2 :=
  addBias (matmul (hidden_s cfg st X nz) (transposeT st.w)) st.visible_bias

/-- Visible reconstruction (src/tfrbm/rbm.py:82-85): sigmoid probability for
Bernoulli visible units, a fresh Gaussian sample for Gaussian visible
units. -/
def visible_recon_p (cfg : RBMCfg) (st : RBMState) (X : T2) (nz : Noise) : T2 :=
  if cfg.t_visible = "b" then mapT cfg.sigmoid (visible_recon_aux cfg st X nz)
  else sample_gaussian (visible_recon_aux cfg st X nz) cfg.sigma nz.uv

/-- Pre-activation of the negative-phase hidden layer from the visible
reconstruction (src/tfrbm/rbm.py:88-89). -/
def hidden_recon_aux (cfg : RBMCfg) (st : RBMState) (X : T2) (nz : Noise) : T2 :=
  addBias (matmul (visible_recon_p cfg st X nz) st.w) st.hidden_bias

/-- Negative-phase hidden value (src/tfrbm/rbm.py:90-93): a probability
(sigmoid) for Bernoulli hidden units, the raw pre-activation for Gaussian
hidden units; in neither case is a stochastic sample drawn. -/
def hidden_recon_p (cfg : RBMCfg) (st : RBMState) (X : T2) (nz : Noise) : T2 :=
  if cfg.t_hidden = "b" then mapT cfg.sigmoid (hidden_recon_aux cfg st X nz)
  else hidden_recon_aux cfg st X nz

/-- Positive gradient `tf.matmul(tf.transpose(self.x), hidden_p)`
(src/tfrbm/rbm.py:96). -/
def positive_grad (cfg : RBMCfg) (st : RBMState) (X : T2) : T2 :=
  matmul (transposeT X) (hidden_p cfg st X)

/-- Negative gradient `tf.matmul(tf.transpose(visible_recon_p),
hidden_recon_p)` (src/tfrbm/rbm.py:97-98). -/
def negative_grad (cfg : RBMCfg) (st : RBMState) (X : T2) (nz : Noise) : T2 :=
  matmul (transposeT (visible_recon_p cfg st X nz)) (hidden_recon_p cfg st X nz)

/-- The momentum-update helper `f(x_old, x_new)` of the source
(src/tfrbm/rbm.py:100-102), on 2-D tensors.  The divisor is
`tf.to_float(tf.shape(x_new)[0])`: the dynamic first dimension of the raw
gradient tensor `x_new` — not the batch row count. -/
def fDelta2 (cfg : RBMCfg) (x_old x_new : T2) : T2 :=
  ⟨x_old.rows, x_old.cols, fun i j =>
    cfg.momentum * x_old.e i j +
      cfg.learning_rate * x_new.e i j * (1 - cfg.momentum) / (x_new.rows : ℚ)⟩

/-- The momentum-update helper `f(x_old, x_new)` of the source
(src/tfrbm/rbm.py:100-102), on 1-D tensors; the divisor
`tf.shape(x_new)[0]` is the vector length here. -/
def fDelta1 (cfg : RBMCfg) (x_old x_new : T1) : T1 :=
  ⟨x_old.len, fun i =>
    cfg.momentum * x_old.e i +
      cfg.learning_rate * x_new.e i * (1 - cfg.momentum) / (x_new.len : ℚ)⟩

/-- New weight accumulator `f(self.delta_w, positive_grad - negative_grad)`
(src/tfrbm/rbm.py:104). -/
def delta_w_new (cfg : RBMCfg) (st : RBMState) (X : T2) (nz : Noise) : T2 :=
  fDelta2 cfg st.delta_w (subT (positive_grad cfg st X) (negative_grad cfg st X nz))

/-- New visible-bias accumulator
`f(self.delta_visible_bias, tf.reduce_mean(self.x - visible_recon_p, 0))`
(src/tfrbm/rbm.py:105-106). -/
def delta_visible_bias_new (cfg : RBMCfg) (st : RBMState) (X : T2) (nz : Noise) : T1 :=
  fDelta1 cfg st.delta_visible_bias (reduceMean0 (subT X (visible_recon_p cfg st X nz)))

/-- New hidden-bias accumulator
`f(self.delta_hidden_bias, tf.reduce_mean(hidden_p - hidden_recon_p, 0))`
(src/tfrbm/rbm.py:107-108). -/
def delta_hidden_bias_new (cfg : RBMCfg) (st : RBMState) (X : T2) (nz : Noise) : T1 :=
  fDelta1 cfg st.delta_hidden_bias
    (reduceMean0 (subT (hidden_p cfg st X) (hidden_recon_p cfg st X nz)))

/-- One CD-1 training step, `RBM.partial_fit(batch_x)`
(src/tfrbm/rbm.py:110-125,182-183): runs `update_weights + update_deltas` in
one session call, so all new deltas are computed from the pre-call state;
each parameter is incremented by its new delta and each accumulator is
replaced by its new delta. -/
def cdFitStep (cfg : RBMCfg) (st : RBMState) (X : T2) (nz : Noise) : RBMState :=
  ⟨addT st.w (delta_w_new cfg st X nz),
   addT1 st.visible_bias (delta_visible_bias_new cfg st X nz),
   addT1 st.hidden_bias (delta_hidden_bias_new cfg st X nz),
   delta_w_new cfg st X nz,
   delta_visible_bias_new cfg st X nz,
   delta_hidden_bias_new cfg st X nz⟩

/-! ### The deterministic inference graph (src/tfrbm/rbm.py:127-147) -/

/-- Deterministic hidden representation `self.compute_hidden`
(src/tfrbm/rbm.py:128-132): sigmoid probability for Bernoulli hidden units,
identity pre-activation for Gaussian hidden units; no sampling. -/
def compute_hidden (cfg : RBMCfg) (st : RBMState) (X : T2) : T2 :=
  if cfg.t_hidden = "b" then
    mapT cfg.sigmoid (addBias (matmul X st.w) st.hidden_bias)
  else
    addBias (matmul X st.w) st.hidden_bias

/-- Deterministic visible reconstruction `self.compute_visible`
(src/tfrbm/rbm.py:135-137,141-147): decode of the deterministic hidden
representation; no sampling in either unit-type branch. -/
def compute_visible (cfg : RBMCfg) (st : RBMState) (X : T2) : T2 :=
  if cfg.t_visible = "b" then
    mapT cfg.sigmoid
      (addBias (matmul (compute_hidden cfg st X) (transposeT st.w)) st.visible_bias)
  else
    addBias (matmul (compute_hidden cfg st X) (transposeT st.w)) st.visible_bias

/-- Deterministic decode of an externally supplied hidden batch,
`self.compute_visible_from_hidden` (src/tfrbm/rbm.py:138-147). -/
def compute_visible_from_hidden (cfg : RBMCfg) (st : RBMState) (Y : T2) : T2 :=
  if cfg.t_visible = "b" then
    mapT cfg.sigmoid (addBias (matmul Y (transposeT st.w)) st.visible_bias)
  else
    addBias (matmul Y (transposeT st.w)) st.visible_bias

/-- `RBM.transform(batch_x)` (src/tfrbm/rbm.py:173-174). -/
def transform (cfg : RBMCfg) (st : RBMState) (X : T2) : T2 :=
  compute_hidden cfg st X

/-- `RBM.transform_inv(batch_y)` (src/tfrbm/rbm.py:176-177). -/
def transform_inv (cfg : RBMCfg) (st : RBMState) (Y : T2) : T2 :=
  compute_visible_from_hidden cfg st Y

/-- `RBM.reconstruct(batch_x)` (src/tfrbm/rbm.py:179-180). -/
def reconstruct (cfg : RBMCfg) (st : RBMState) (X : T2) : T2 :=
  compute_visible cfg st X

/-! ### The error estimator (src/tfrbm/rbm.py:155-161,167-168) -/

/-- Row-wise L2 normalization `tf.nn.l2_normalize(t, 1)`: each entry is
divided by the square root of the squared row norm floored at the library
epsilon. -/
def l2_normalize1 (cfg : RBMCfg) (A : T2) : T2 :=
  ⟨A.rows, A.cols, fun i j =>
    A.e i j / cfg.sqrtFn (max (∑ k ∈ Finset.range A.cols, A.e i k ^ 2) cfg.l2eps)⟩

/-- The mean cosine `cos_val` of the cosine error branch
(src/tfrbm/rbm.py:156-158): mean over rows of the dot products of the
row-normalized batch and its deterministic reconstruction. -/
def cos_val (cfg : RBMCfg) (st : RBMState) (X : T2) : ℚ :=
  reduceMeanT1
    (reduceSum1 (mulT (l2_normalize1 cfg X) (l2_normalize1 cfg (compute_visible cfg st X))))

/-- The reconstruction error `self.compute_err` (src/tfrbm/rbm.py:155-161):
`tf.acos(cos_val) / np.pi` in cosine mode — the mean cosine is passed to
`acos` as is, with no clamping — and the mean squared entry difference in
mse mode. -/
def compute_err (cfg : RBMCfg) (st : RBMState) (X : T2) : ℚ :=
  if cfg.err_function = "cosine" then
    cfg.acosFn (cos_val cfg st X) / cfg.piQ
  else
    reduceMeanAll (mapT (fun q => q ^ 2) (subT X (compute_visible cfg st X)))

/-- `RBM.get_err(batch_x)` (src/tfrbm/rbm.py:167-168). -/
def get_err (cfg : RBMCfg) (st : RBMState) (X : T2) : ℚ :=
  compute_err cfg st X

/-! ### Weight access (src/tfrbm/rbm.py:246-260) -/

/-- `RBM.get_weights()` (src/tfrbm/rbm.py:246-249). -/
def get_weights (st : RBMState) : T2 × T1 × T1 :=
  (st.w, st.visible_bias, st.hidden_bias)

/-- `RBM.set_weights(w, visible_bias, hidden_bias)` (src/tfrbm/rbm.py:257-260):
assigns the three parameter variables; the three accumulator variables are
not touched. -/
def set_weights (st : RBMState) (w : T2) (vb hb : T1) : RBMState :=
  ⟨w, vb, hb, st.delta_w, st.delta_visible_bias, st.delta_hidden_bias⟩

/-! ### Constructor validation and the tqdm condition (src/tfrbm/rbm.py:21-38) -/

/-- Exceptions the constructor can raise before building the graph:
`ValueError` from the explicit validation checks, and the name-resolution
error raised by evaluating the unbound local name `tqdm`
(`UnboundLocalError`, a subclass of `NameError`). -/
inductive PyErr where
  | valueError : String → PyErr
  | nameError : PyErr
deriving DecidableEq

/-- Outcome of the prologue of `RBM.__init__` (src/tfrbm/rbm.py:21-38):
the four validation checks in source order, then the line
`if use_tqdm or tqdm is not None:`.  The `from tqdm import tqdm` on the next
line makes `tqdm` a local variable of `__init__`, so when `use_tqdm` is
false the right operand of `or` reads an unbound local and raises; when
`use_tqdm` is true the `or` short-circuits and the import runs.  `none`
means the prologue completes and construction proceeds to build the graph. -/
def rbmInitErr (momentum : ℚ) (err_function t_visible t_hidden : String)
    (use_tqdm : Bool) : Option PyErr :=
  if ¬(0 ≤ momentum ∧ momentum ≤ 1) then
    some (PyErr.valueError "momentum should be in range [0, 1]")
  else if ¬(err_function = "mse" ∨ err_function = "cosine") then
    some (PyErr.valueError "err_function should be either mse or cosine")
  else if ¬(t_visible = "b" ∨ t_visible = "g") then
    some (PyErr.valueError "t_visible must be either b or g")
  else if ¬(t_hidden = "b" ∨ t_hidden = "g") then
    some (PyErr.valueError "t_visible must be either b or g")
  else if use_tqdm then none
  else some PyErr.nameError

/-- True exactly when the constructor prologue raises a `ValueError`
(the validation failures of src/tfrbm/rbm.py:21-31). -/
def raisesValueError : Option PyErr → Bool
  | some (PyErr.valueError _) => true
  | _ => false

/-! ### The training-loop driver `RBM.fit` (src/tfrbm/rbm.py:185-244)

The dataset handed to `fit` is a caller-owned numpy array.  To state frame
properties about it, arrays live in a heap (a list of `T2` values) and the
caller passes a reference (an index).  The only array operations `fit`
performs are `data_x.copy()` and fancy-indexing `data_x_cpy[inds]`, both of
which allocate a fresh array; batch slicing reads rows without copying
relevance to the heap.  Randomness (`np.random.shuffle`) is an oracle input:
an in-place shuffle of `inds` is reading the current entries through a
position permutation supplied by the oracle. -/

/-- Heap of numpy arrays; references are list indices. -/
structure Heap where
  arrays : List T2

/-- Allocate a fresh array, returning the new heap and the reference. -/
def Heap.alloc (h : Heap) (a : T2) : Heap × ℕ :=
  (⟨h.arrays ++ [a]⟩, h.arrays.length)

/-- Read the array a reference designates. -/
def Heap.read (h : Heap) (r : ℕ) : T2 :=
  h.arrays.getD r ⟨0, 0, fun _ _ => 0⟩

/-- Normalize one Python slice endpoint against a length `n`: negative
indices count from the end and the result is clamped into `[0, n]`. -/
def pyIdx (n : ℕ) (i : Int) : ℕ :=
  if i < 0 then ((n : Int) + i).toNat else min i.toNat n

/-- Row slice `a[start:stop]` with Python semantics (numpy basic slicing on
the first axis). -/
def rowSlice (A : T2) (start stop : Int) : T2 :=
  ⟨pyIdx A.rows stop - pyIdx A.rows start, A.cols,
   fun i j => A.e (pyIdx A.rows start + i) j⟩

/-- The batch formed for batch index `b`,
`data_x_cpy[b * batch_size:(b + 1) * batch_size]` (src/tfrbm/rbm.py:226). -/
def fitBatch (A : T2) (b : ℕ) (batch_size : Int) : T2 :=
  rowSlice A ((b : Int) * batch_size) (((b : Int) + 1) * batch_size)

/-- The batch count computed once before the epoch loop
(src/tfrbm/rbm.py:195-199): `n_data // batch_size` plus one for a remainder
when `batch_size > 0`, and `1` otherwise. -/
def nBatchesOf (n_data : ℕ) (batch_size : Int) : ℕ :=
  if 0 < batch_size then
    n_data / batch_size.toNat + (if n_data % batch_size.toNat = 0 then 0 else 1)
  else 1

/-- Reindex rows by a list of indices, numpy fancy indexing
`data_x_cpy[inds]`: allocates a fresh array whose `i`-th row is row
`inds[i]` of the input. -/
def reindexRows (A : T2) (inds : List ℕ) : T2 :=
  ⟨inds.length, A.cols, fun i j => A.e (inds.getD i 0) j⟩

/-- The state the epoch loop threads: the heap, the reference the local
`data_x_cpy` currently designates, the current contents of `inds`, and the
model state. -/
structure EpochState where
  heap : Heap
  ref : ℕ
  inds : List ℕ
  st : RBMState

/-- The inner batch loop (src/tfrbm/rbm.py:225-230), starting at batch index
`b` with `k` batches left: slice the batch, run `partial_fit`, then
`get_err` on the updated state, and record the error in order. -/
def runBatches (cfg : RBMCfg) (A : T2) (batch_size : Int) (nz : ℕ → Noise) :
    RBMState → ℕ → ℕ → RBMState × List ℚ
  | st, _, 0 => (st, [])
  | st, b, k + 1 =>
    let batch := fitBatch A b batch_size
    let st1 := cdFitStep cfg st batch (nz b)
    let err := get_err cfg st1 batch
    let r := runBatches cfg A batch_size nz st1 (b + 1) k
    (r.1, err :: r.2)

/-- One epoch body (src/tfrbm/rbm.py:216-230): when shuffling, permute
`inds` in place through the oracle's position permutation and rebind
`data_x_cpy` to the freshly allocated `data_x_cpy[inds]`; then run the batch
loop over the current working array. -/
def epochStep (cfg : RBMCfg) (batch_size : Int) (nB : ℕ) (shuffle : Bool)
    (noise : ℕ → ℕ → Noise) (shuf : ℕ → ℕ → ℕ) (e : ℕ) (s : EpochState) :
    EpochState × List ℚ :=
  let s1 : EpochState :=
    if shuffle then
      let inds1 := (List.range s.inds.length).map fun i => s.inds.getD (shuf e i) 0
      let al := s.heap.alloc (reindexRows (s.heap.read s.ref) inds1)
      ⟨al.1, al.2, inds1, s.st⟩
    else s
  let r := runBatches cfg (s1.heap.read s1.ref) batch_size (noise e) s1.st 0 nB
  (⟨s1.heap, s1.ref, s1.inds, r.1⟩, r.2)

/-- The epoch loop (src/tfrbm/rbm.py:209-242), starting at epoch `e` with
`k` epochs left; per-epoch error lists are concatenated in epoch order
(`errs = np.hstack([errs, epoch_errs])`). -/
def runEpochs (cfg : RBMCfg) (batch_size : Int) (nB : ℕ) (shuffle : Bool)
    (noise : ℕ → ℕ → Noise) (shuf : ℕ → ℕ → ℕ) :
    ℕ → ℕ → EpochState → EpochState × List ℚ
  | _, 0, s => (s, [])
  | e, k + 1, s =>
    let p := epochStep cfg batch_size nB shuffle noise shuf e s
    let r := runEpochs cfg batch_size nB shuffle noise shuf (e + 1) k p.1
    (r.1, p.2 ++ r.2)

/-- The epoch-loop state reached after `i` epochs starting from `s` at epoch
index `e0` (used to state the epoch-order decomposition of the error
history). -/
def epochStateAt (cfg : RBMCfg) (batch_size : Int) (nB : ℕ) (shuffle : Bool)
    (noise : ℕ → ℕ → Noise) (shuf : ℕ → ℕ → ℕ) (e0 : ℕ) (s : EpochState) :
    ℕ → EpochState
  | 0 => s
  | i + 1 =>
    (epochStep cfg batch_size nB shuffle noise shuf (e0 + i)
      (epochStateAt cfg batch_size nB shuffle noise shuf e0 s i)).1

/-- The pre-loop set-up of the working data (src/tfrbm/rbm.py:201-206): with
shuffling, `data_x_cpy = data_x.copy()` allocates a fresh array and
`inds = np.arange(n_data)`; without shuffling, `data_x_cpy` aliases the
caller's array. -/
def fitInitState (h : Heap) (dataRef : ℕ) (shuffle : Bool) (st : RBMState) :
    EpochState :=
  if shuffle then
    let al := h.alloc (h.read dataRef)
    ⟨al.1, al.2, List.range (h.read dataRef).rows, st⟩
  else
    ⟨h, dataRef, List.range (h.read dataRef).rows, st⟩

/-- Result of `RBM.fit`: the error history it returns, plus the final heap
and model state. -/
structure FitOut where
  errs : List ℚ
  heap : Heap
  st : RBMState

/-- `RBM.fit(data_x, n_epoches, batch_size, shuffle, verbose)`
(src/tfrbm/rbm.py:185-244).  `verbose` only prints and is omitted.  The
oracles: `noise e b` supplies the random draws of the `partial_fit` of batch
`b` in epoch `e`; `shuf e` is the position permutation `np.random.shuffle`
applies to `inds` in epoch `e`. -/
def fit (cfg : RBMCfg) (st : RBMState) (h : Heap) (dataRef : ℕ)
    (n_epoches : ℕ) (batch_size : Int) (shuffle : Bool)
    (noise : ℕ → ℕ → Noise) (shuf : ℕ → ℕ → ℕ) : FitOut :=
  let n_data := (h.read dataRef).rows
  let nB := nBatchesOf n_data batch_size
  let s0 := fitInitState h dataRef shuffle st
  let r := runEpochs cfg batch_size nB shuffle noise shuf 0 n_epoches s0
  ⟨r.2, r.1.heap, r.1.st⟩

/-! ### Concrete instances used by counterexamples and witnesses -/

/-- A concrete Gaussian/Gaussian configuration: 2 visible units, 1 hidden
unit, `sigma = 1`, `learning_rate = 1`, `momentum = 0`, mse error; the
abstract transcendental fields are instantiated with simple rational
functions (no theorem depends on their values). -/
def cfgG : RBMCfg :=
  ⟨2, 1, "g", "g", 1, 1, 0, "mse", fun q => q, fun q => q, fun q => q, 4, 0⟩

/-- The cosine-error variant of `cfgG`. -/
def cfgC : RBMCfg :=
  ⟨2, 1, "g", "g", 1, 1, 0, "cosine", fun q => q, fun q => q, fun q => q, 4, 0⟩

/-- A concrete state for `cfgG`: `w = [[1], [0]]`, zero biases, zero
accumulators. -/
def stG : RBMState :=
  ⟨⟨2, 1, fun i _ => if i = 0 then 1 else 0⟩, ⟨2, fun _ => 0⟩, ⟨1, fun _ => 0⟩,
   ⟨2, 1, fun _ _ => 0⟩, ⟨2, fun _ => 0⟩, ⟨1, fun _ => 0⟩⟩

/-- A single-row batch of ones (batch size 1, 2 features). -/
def xOne : T2 := ⟨1, 2, fun _ _ => 1⟩

/-- A two-row batch whose rows are identical (all ones). -/
def xTwo : T2 := ⟨2, 2, fun _ _ => 1⟩

/-- A three-row, two-column dataset with pairwise distinct rows. -/
def dataThree : T2 := ⟨3, 2, fun i j => (i : ℚ) + (j : ℚ)⟩

/-- Zero random draws (Gaussian samples degenerate to their means). -/
def nzZero : Noise := ⟨fun _ _ => 0, fun _ _ => 0⟩

/-- A one-array heap holding `xTwo`. -/
def heapTwo : Heap := ⟨[xTwo]⟩

/-- A one-array heap holding `dataThree`. -/
def heapThree : Heap := ⟨[dataThree]⟩

/-! ### Helper lemmas -/

/-- The column count of the positive-phase hidden probabilities is the
hidden size of the weight matrix, in both unit-type branches. -/
theorem hidden_p_cols (cfg : RBMCfg) (st : RBMState) (X : T2) :
    (hidden_p cfg st X).cols = st.w.cols := by
  unfold hidden_p mapT hidden_aux addBias matmul
  split <;> rfl

/-- Entries of a row of `compute_hidden` depend only on the same row of the
input batch. -/
theorem compute_hidden_row_congr (cfg : RBMCfg) (st : RBMState) (X : T2)
    (i i' : ℕ) (hrow : ∀ k, X.e i k = X.e i' k) :
    ∀ j, (compute_hidden cfg st X).e i j = (compute_hidden cfg st X).e i' j := by
  intro j
  have hsum : (∑ k ∈ Finset.range X.cols, X.e i k * st.w.e k j)
      = ∑ k ∈ Finset.range X.cols, X.e i' k * st.w.e k j :=
    Finset.sum_congr rfl fun k _ => by rw [hrow k]
  unfold compute_hidden mapT addBias matmul
  split <;> simp only [hsum]

/-- Entries of a row of `compute_visible` depend only on the same row of the
input batch. -/
theorem compute_visible_row_congr (cfg : RBMCfg) (st : RBMState) (X : T2)
    (i i' : ℕ) (hrow : ∀ k, X.e i k = X.e i' k) :
    ∀ j, (compute_visible cfg st X).e i j = (compute_visible cfg st X).e i' j := by
  intro j
  have hsum : (∑ k ∈ Finset.range (compute_hidden cfg st X).cols,
        (compute_hidden cfg st X).e i k * (transposeT st.w).e k j)
      = ∑ k ∈ Finset.range (compute_hidden cfg st X).cols,
        (compute_hidden cfg st X).e i' k * (transposeT st.w).e k j :=
    Finset.sum_congr rfl fun k _ => by
      rw [compute_hidden_row_congr cfg st X i i' hrow k]
  unfold compute_visible mapT addBias matmul
  split <;> simp only [hsum]

/-! ### Claim theorems -/

/-- C1, counterexample.  The claim computes each new accumulator as
`momentum * oldDelta + learningRate * rawGradient * (1 - momentum) /
batchSize`, with `batchSize` the row count of the input batch.  On the
concrete Gaussian/Gaussian instance below (one-row batch, 2 visible units,
`momentum = 0`, `learning_rate = 1`, zero noise) the code's new weight
accumulator entry is `1/2` (the divisor is `n_visible = 2`, the first
dimension of the raw weight gradient) while the claim's formula yields `1`
(divisor `batchSize = 1`). -/
theorem C1_counterexample :
    (cdFitStep cfgG stG xOne nzZero).delta_w.e 1 0 ≠
      cfgG.momentum * stG.delta_w.e 1 0 +
        cfgG.learning_rate *
            (subT (positive_grad cfgG stG xOne) (negative_grad cfgG stG xOne nzZero)).e 1 0 *
            (1 - cfgG.momentum) / (xOne.rows : ℚ) := by
  norm_num [cdFitStep, delta_w_new, fDelta2, subT, positive_grad, negative_grad,
    hidden_p, hidden_s, hidden_aux, hidden_recon_p, hidden_recon_aux,
    visible_recon_p, visible_recon_aux, sample_gaussian, sample_bernoulli,
    addBias, matmul, transposeT, mapT, cfgG, stG, xOne, nzZero,
    Finset.sum_range_succ, Finset.sum_range_zero]

/-- C1, amended.  Every training step replaces each momentum accumulator by
`momentum * oldDelta + learningRate * rawGradient * (1 - momentum) / d`,
where `d` is the first dimension of the raw-gradient tensor
(`tf.shape(x_new)[0]`): `n_visible` for the weight matrix and the visible
bias, `n_hidden` for the hidden bias — not the batch row count.  With
`momentum = 0` the new weight accumulator is
`learningRate * rawGradient / d`. -/
theorem C1_update_rule (cfg : RBMCfg) (st : RBMState) (X : T2) (nz : Noise)
    (hX : X.cols = cfg.n_visible) (hW : st.w.cols = cfg.n_hidden) :
    (∀ i j, (cdFitStep cfg st X nz).delta_w.e i j =
        cfg.momentum * st.delta_w.e i j +
          cfg.learning_rate *
              (subT (positive_grad cfg st X) (negative_grad cfg st X nz)).e i j *
              (1 - cfg.momentum) / (cfg.n_visible : ℚ)) ∧
    (∀ j, (cdFitStep cfg st X nz).delta_visible_bias.e j =
        cfg.momentum * st.delta_visible_bias.e j +
          cfg.learning_rate *
              (reduceMean0 (subT X (visible_recon_p cfg st X nz))).e j *
              (1 - cfg.momentum) / (cfg.n_visible : ℚ)) ∧
    (∀ j, (cdFitStep cfg st X nz).delta_hidden_bias.e j =
        cfg.momentum * st.delta_hidden_bias.e j +
          cfg.learning_rate *
              (reduceMean0
                (subT (hidden_p cfg st X) (hidden_recon_p cfg st X nz))).e j *
              (1 - cfg.momentum) / (cfg.n_hidden : ℚ)) ∧
    (cfg.momentum = 0 → ∀ i j, (cdFitStep cfg st X nz).delta_w.e i j =
        cfg.learning_rate *
            (subT (positive_grad cfg st X) (negative_grad cfg st X nz)).e i j /
            (cfg.n_visible : ℚ)) := by
  have hw : ∀ i j, (cdFitStep cfg st X nz).delta_w.e i j =
      cfg.momentum * st.delta_w.e i j +
        cfg.learning_rate *
            (subT (positive_grad cfg st X) (negative_grad cfg st X nz)).e i j *
            (1 - cfg.momentum) / (cfg.n_visible : ℚ) := by
    intro i j
    rw [← hX]
    rfl
  refine ⟨hw, ?_, ?_, ?_⟩
  · intro j
    rw [← hX]
    rfl
  · intro j
    rw [← hW, ← hidden_p_cols cfg st X]
    rfl
  · intro h0 i j
    rw [hw i j, h0]
    ring

/-- C1 witness: the amended update rule evaluated on the concrete instance
of the counterexample. -/
theorem C1_update_rule_witness :
    (cdFitStep cfgG stG xOne nzZero).delta_w.e 1 0 =
      cfgG.momentum * stG.delta_w.e 1 0 +
        cfgG.learning_rate *
            (subT (positive_grad cfgG stG xOne) (negative_grad cfgG stG xOne nzZero)).e 1 0 *
            (1 - cfgG.momentum) / (cfgG.n_visible : ℚ) :=
  (C1_update_rule cfgG stG xOne nzZero (by decide) (by decide)).1 1 0

/-- C2.  Structure of one CD-1 step: the positive-phase hidden probability
equals the deterministic encode of the batch; the negative-phase hidden
value is that same probability-only map applied to the visible
reconstruction (no resampling); the visible reconstruction is built from
the stochastic hidden sample (shown branchwise: for a Bernoulli visible
layer it is exactly the deterministic decode of the hidden sample, for a
Gaussian visible layer a Gaussian draw around the decode pre-activation of
the hidden sample); and the new weight accumulator is the momentum helper
applied to `Gpos - Gneg` with `Gpos = Xᵀ·hiddenProb` and
`Gneg = visibleReconᵀ·hiddenRecon`. -/
theorem C2_cd1_structure (cfg : RBMCfg) (st : RBMState) (X : T2) (nz : Noise) :
    hidden_p cfg st X = compute_hidden cfg st X ∧
    hidden_recon_p cfg st X nz = compute_hidden cfg st (visible_recon_p cfg st X nz) ∧
    visible_recon_p cfg st X nz =
      (if cfg.t_visible = "b" then
        compute_visible_from_hidden cfg st (hidden_s cfg st X nz)
      else
        sample_gaussian
          (addBias (matmul (hidden_s cfg st X nz) (transposeT st.w)) st.visible_bias)
          cfg.sigma nz.uv) ∧
    (cdFitStep cfg st X nz).delta_w =
      fDelta2 cfg st.delta_w
        (subT (matmul (transposeT X) (hidden_p cfg st X))
          (matmul (transposeT (visible_recon_p cfg st X nz))
            (hidden_recon_p cfg st X nz))) := by
  refine ⟨?_, ?_, ?_, rfl⟩
  · unfold hidden_p compute_hidden hidden_aux
    split <;> rfl
  · unfold hidden_recon_p compute_hidden hidden_recon_aux
    split <;> rfl
  · unfold visible_recon_p compute_visible_from_hidden visible_recon_aux
    split <;> rfl

/-- C3.  The deterministic inference path: `transform` is the sigmoid
probability for a Bernoulli hidden layer and the raw pre-activation for a
Gaussian hidden layer; `transform_inv` likewise for the visible layer;
`reconstruct` is encode followed by decode; none of them consumes a random
draw; consequently two identical input rows produce identical
`reconstruct` output rows. -/
theorem C3_deterministic_inference (cfg : RBMCfg) (st : RBMState) (X : T2)
    (i i' : ℕ) (hrow : ∀ k, X.e i k = X.e i' k) :
    (∀ j, (reconstruct cfg st X).e i j = (reconstruct cfg st X).e i' j) ∧
    reconstruct cfg st X = compute_visible cfg st X ∧
    (cfg.t_hidden = "b" → transform cfg st X =
      mapT cfg.sigmoid (addBias (matmul X st.w) st.hidden_bias)) ∧
    (cfg.t_hidden = "g" → transform cfg st X =
      addBias (matmul X st.w) st.hidden_bias) ∧
    (cfg.t_visible = "b" → ∀ Y, transform_inv cfg st Y =
      mapT cfg.sigmoid (addBias (matmul Y (transposeT st.w)) st.visible_bias)) ∧
    (cfg.t_visible = "g" → ∀ Y, transform_inv cfg st Y =
      addBias (matmul Y (transposeT st.w)) st.visible_bias) := by
  refine ⟨compute_visible_row_congr cfg st X i i' hrow, rfl, ?_, ?_, ?_, ?_⟩
  · intro hb
    unfold transform compute_hidden
    rw [if_pos hb]
  · intro hg
    unfold transform compute_hidden
    rw [if_neg (by rw [hg]; decide)]
  · intro hb Y
    unfold transform_inv compute_visible_from_hidden
    rw [if_pos hb]
  · intro hg Y
    unfold transform_inv compute_visible_from_hidden
    rw [if_neg (by rw [hg]; decide)]

/-- C3 witness: on the all-ones two-row batch the two reconstructed rows
agree entrywise (shown at column 0). -/
theorem C3_deterministic_inference_witness :
    (reconstruct cfgG stG xTwo).e 0 0 = (reconstruct cfgG stG xTwo).e 1 0 :=
  (C3_deterministic_inference cfgG stG xTwo 0 1 fun _ => rfl).1 0

/-- C5.  The constructor prologue raises a `ValueError` exactly when
momentum lies outside `[0, 1]`, the error mode is neither `mse` nor
`cosine`, or a unit type is neither `b` nor `g`; in-range arguments never
produce a validation error (the prologue then either completes or raises
the unrelated `tqdm` name error, which is not a `ValueError`). -/
theorem C5_validation_iff (momentum : ℚ) (ef tv th : String) (u : Bool) :
    raisesValueError (rbmInitErr momentum ef tv th u) = true ↔
      (¬(0 ≤ momentum ∧ momentum ≤ 1) ∨ ¬(ef = "mse" ∨ ef = "cosine") ∨
        ¬(tv = "b" ∨ tv = "g") ∨ ¬(th = "b" ∨ th = "g")) := by
  unfold rbmInitErr
  split_ifs <;> simp_all [raisesValueError]

/-- C7 (supporting evaluation for the missing clamp).  In cosine mode the
error is `acos` applied to the raw mean cosine divided by pi: no clamping of
the `acos` argument occurs anywhere between the mean cosine and the `acos`
call, for every interpretation of `acos`. -/
theorem C7_acos_unclamped (cfg : RBMCfg) (st : RBMState) (X : T2)
    (hc : cfg.err_function = "cosine") :
    get_err cfg st X = cfg.acosFn (cos_val cfg st X) / cfg.piQ := by
  unfold get_err compute_err
  rw [if_pos hc]

/-- C7 witness: the cosine-mode error on a concrete instance. -/
theorem C7_acos_unclamped_witness :
    get_err cfgC stG xOne = cfgC.acosFn (cos_val cfgC stG xOne) / cfgC.piQ :=
  C7_acos_unclamped cfgC stG xOne rfl

/-- C9.  `set_weights` overwrites exactly the three parameters — an
immediate `get_weights` returns the supplied triple — and leaves the three
momentum accumulators untouched. -/
theorem C9_set_get_weights (st : RBMState) (w : T2) (vb hb : T1) :
    get_weights (set_weights st w vb hb) = (w, vb, hb) ∧
    (set_weights st w vb hb).delta_w = st.delta_w ∧
    (set_weights st w vb hb).delta_visible_bias = st.delta_visible_bias ∧
    (set_weights st w vb hb).delta_hidden_bias = st.delta_hidden_bias :=
  ⟨rfl, rfl, rfl, rfl⟩

/-- C10.  With all validation checks passing, the constructor prologue with
`use_tqdm = false` evaluates the unbound local name `tqdm` in
`use_tqdm or tqdm is not None` and raises (an `UnboundLocalError`, a
subclass of `NameError`); with `use_tqdm = true` the `or` short-circuits and
no name error is raised. -/
theorem C10_tqdm_unbound (momentum : ℚ) (ef tv th : String)
    (hm : 0 ≤ momentum ∧ momentum ≤ 1) (hef : ef = "mse" ∨ ef = "cosine")
    (htv : tv = "b" ∨ tv = "g") (hth : th = "b" ∨ th = "g") :
    rbmInitErr momentum ef tv th false = some PyErr.nameError ∧
    rbmInitErr momentum ef tv th true = none := by
  constructor <;>
    · unfold rbmInitErr
      rw [if_neg (not_not_intro hm), if_neg (not_not_intro hef),
        if_neg (not_not_intro htv), if_neg (not_not_intro hth)]
      rfl

/-- C10 witness: a fully valid argument tuple. -/
theorem C10_tqdm_unbound_witness :
    rbmInitErr (1 / 2) "mse" "b" "b" false = some PyErr.nameError ∧
    rbmInitErr (1 / 2) "mse" "b" "b" true = none :=
  C10_tqdm_unbound (1 / 2) "mse" "b" "b" (by norm_num) (Or.inl rfl)
    (Or.inl rfl) (Or.inl rfl)

/-- Helper: the batch loop records exactly one error per batch, in batch
order. -/
theorem runBatches_length (cfg : RBMCfg) (A : T2) (bs : Int) (nz : ℕ → Noise) :
    ∀ k st b, ((runBatches cfg A bs nz st b k).2).length = k := by
  intro k
  induction k with
  | zero => intro st b; rfl
  | succ n ih => intro st b; simp [runBatches, ih]

/-- Helper: one epoch contributes exactly `nB` errors. -/
theorem epochStep_length (cfg : RBMCfg) (bs : Int) (nB : ℕ) (shuffle : Bool)
    (noise : ℕ → ℕ → Noise) (shuf : ℕ → ℕ → ℕ) (e : ℕ) (s : EpochState) :
    ((epochStep cfg bs nB shuffle noise shuf e s).2).length = nB := by
  unfold epochStep
  simp [runBatches_length]

/-- Helper: `k` epochs contribute exactly `k * nB` errors. -/
theorem runEpochs_length (cfg : RBMCfg) (bs : Int) (nB : ℕ) (shuffle : Bool)
    (noise : ℕ → ℕ → Noise) (shuf : ℕ → ℕ → ℕ) :
    ∀ k e s, ((runEpochs cfg bs nB shuffle noise shuf e k s).2).length = k * nB := by
  intro k
  induction k with
  | zero => intro e s; simp [runEpochs]
  | succ n ih =>
    intro e s
    simp [runEpochs, epochStep_length, ih, Nat.succ_mul, Nat.add_comm]

/-- Helper: unrolling one epoch commutes with the iterated epoch state. -/
theorem epochStateAt_shift (cfg : RBMCfg) (bs : Int) (nB : ℕ) (shuffle : Bool)
    (noise : ℕ → ℕ → Noise) (shuf : ℕ → ℕ → ℕ) (e0 : ℕ) (s : EpochState) :
    ∀ i, epochStateAt cfg bs nB shuffle noise shuf e0 s (i + 1)
      = epochStateAt cfg bs nB shuffle noise shuf (e0 + 1)
          (epochStep cfg bs nB shuffle noise shuf e0 s).1 i := by
  intro i
  induction i with
  | zero => rfl
  | succ n ih =>
    have harith : e0 + (n + 1) = e0 + 1 + n := by omega
    calc epochStateAt cfg bs nB shuffle noise shuf e0 s (n + 1 + 1)
        = (epochStep cfg bs nB shuffle noise shuf (e0 + (n + 1))
            (epochStateAt cfg bs nB shuffle noise shuf e0 s (n + 1))).1 := rfl
      _ = (epochStep cfg bs nB shuffle noise shuf (e0 + 1 + n)
            (epochStateAt cfg bs nB shuffle noise shuf (e0 + 1)
              (epochStep cfg bs nB shuffle noise shuf e0 s).1 n)).1 := by
          rw [ih, harith]
      _ = epochStateAt cfg bs nB shuffle noise shuf (e0 + 1)
            (epochStep cfg bs nB shuffle noise shuf e0 s).1 (n + 1) := rfl

/-- Helper: the error history of the epoch loop is the concatenation, in
epoch order, of the per-epoch error lists. -/
theorem runEpochs_eq_join (cfg : RBMCfg) (bs : Int) (nB : ℕ) (shuffle : Bool)
    (noise : ℕ → ℕ → Noise) (shuf : ℕ → ℕ → ℕ) :
    ∀ k e0 s, (runEpochs cfg bs nB shuffle noise shuf e0 k s).2
      = ((List.range k).map fun i =>
          (epochStep cfg bs nB shuffle noise shuf (e0 + i)
            (epochStateAt cfg bs nB shuffle noise shuf e0 s i)).2).flatten := by
  intro k
  induction k with
  | zero => intro e0 s; rfl
  | succ n ih =>
    intro e0 s
    rw [List.range_succ_eq_map, List.map_cons, List.flatten_cons, List.map_map]
    show (epochStep cfg bs nB shuffle noise shuf e0 s).2
        ++ (runEpochs cfg bs nB shuffle noise shuf (e0 + 1) n
            (epochStep cfg bs nB shuffle noise shuf e0 s).1).2 = _
    rw [ih (e0 + 1) (epochStep cfg bs nB shuffle noise shuf e0 s).1]
    congr 1
    refine congrArg List.flatten (List.map_congr_left fun i _ => ?_)
    have harith : e0 + 1 + i = e0 + (i + 1) := by omega
    simp only [Function.comp_apply]
    rw [epochStateAt_shift, harith]

/-- C4 (evaluation at the failing input).  With `batch_size = 0` (or any
non-positive value) the driver does form exactly one batch per epoch
(`n_batches = 1`), but that single batch is the Python slice
`data[0:batch_size]`: empty for `0`, all but the last rows for a negative
value — never the whole 3-row dataset.  The error history of a one-epoch
run accordingly has one (meaningless) entry. -/
theorem C4_nonpositive_batch_eval :
    nBatchesOf dataThree.rows 0 = 1 ∧
    nBatchesOf dataThree.rows (-1) = 1 ∧
    dataThree.rows = 3 ∧
    (fitBatch dataThree 0 0).rows = 0 ∧
    (fitBatch dataThree 0 (-1)).rows = 2 ∧
    ((fit cfgG stG heapThree 0 1 0 false (fun _ _ => nzZero) (fun _ i => i)).errs).length
      = 1 := by
  decide

/-- C6.  With `E > 0` epochs and a positive batch size dividing the dataset
row count, `fit` returns exactly `E * (nSamples / batchSize)` per-batch
errors, and the history decomposes as the epoch-ordered concatenation of
the per-epoch batch-ordered error lists. -/
theorem C6_fit_history (cfg : RBMCfg) (st : RBMState) (h : Heap) (dataRef : ℕ)
    (E : ℕ) (bs : Int) (shuffle : Bool) (noise : ℕ → ℕ → Noise)
    (shuf : ℕ → ℕ → ℕ) (_hE : 0 < E) (hbs : 0 < bs)
    (hdvd : bs.toNat ∣ (h.read dataRef).rows) :
    ((fit cfg st h dataRef E bs shuffle noise shuf).errs).length
        = E * ((h.read dataRef).rows / bs.toNat) ∧
    (fit cfg st h dataRef E bs shuffle noise shuf).errs
        = ((List.range E).map fun i =>
            (epochStep cfg bs (nBatchesOf (h.read dataRef).rows bs) shuffle noise shuf i
              (epochStateAt cfg bs (nBatchesOf (h.read dataRef).rows bs) shuffle noise
                shuf 0 (fitInitState h dataRef shuffle st) i)).2).flatten := by
  have hmod : (h.read dataRef).rows % bs.toNat = 0 := by
    obtain ⟨c, hc⟩ := hdvd
    rw [hc, Nat.mul_mod_right]
  have hnB : nBatchesOf (h.read dataRef).rows bs
      = (h.read dataRef).rows / bs.toNat := by
    unfold nBatchesOf
    rw [if_pos hbs, hmod]
    simp
  constructor
  · show ((runEpochs cfg bs (nBatchesOf (h.read dataRef).rows bs) shuffle noise shuf
        0 E (fitInitState h dataRef shuffle st)).2).length = _
    rw [runEpochs_length, hnB]
  · show (runEpochs cfg bs (nBatchesOf (h.read dataRef).rows bs) shuffle noise shuf
        0 E (fitInitState h dataRef shuffle st)).2 = _
    have hj := runEpochs_eq_join cfg bs (nBatchesOf (h.read dataRef).rows bs) shuffle
      noise shuf E 0 (fitInitState h dataRef shuffle st)
    simpa using hj

/-- C6 witness: one epoch on a 2-row dataset with batch size 1 yields a
2-entry history. -/
theorem C6_fit_history_witness :
    ((fit cfgG stG heapTwo 0 1 1 false (fun _ _ => nzZero) (fun _ i => i)).errs).length
      = 1 * ((heapTwo.read 0).rows / (1 : Int).toNat) :=
  (C6_fit_history cfgG stG heapTwo 0 1 1 false (fun _ _ => nzZero) (fun _ i => i)
    (by norm_num) (by norm_num) (by show (1 : Int).toNat ∣ 2; norm_num)).1

/-- Helper: an epoch body only ever allocates fresh arrays; every array
present before it remains at its reference. -/
theorem epochStep_heap_extend (cfg : RBMCfg) (bs : Int) (nB : ℕ) (shuffle : Bool)
    (noise : ℕ → ℕ → Noise) (shuf : ℕ → ℕ → ℕ) (e : ℕ) (s : EpochState) :
    ∃ t, ((epochStep cfg bs nB shuffle noise shuf e s).1).heap.arrays
      = s.heap.arrays ++ t := by
  cases shuffle with
  | false => exact ⟨[], (List.append_nil _).symm⟩
  | true => exact ⟨_, rfl⟩

/-- Helper: the epoch loop only ever allocates fresh arrays. -/
theorem runEpochs_heap_extend (cfg : RBMCfg) (bs : Int) (nB : ℕ) (shuffle : Bool)
    (noise : ℕ → ℕ → Noise) (shuf : ℕ → ℕ → ℕ) :
    ∀ k e s, ∃ t, ((runEpochs cfg bs nB shuffle noise shuf e k s).1).heap.arrays
      = s.heap.arrays ++ t := by
  intro k
  induction k with
  | zero => intro e s; exact ⟨[], (List.append_nil _).symm⟩
  | succ n ih =>
    intro e s
    obtain ⟨t1, h1⟩ := epochStep_heap_extend cfg bs nB shuffle noise shuf e s
    obtain ⟨t2, h2⟩ := ih (e + 1) (epochStep cfg bs nB shuffle noise shuf e s).1
    refine ⟨t1 ++ t2, ?_⟩
    show ((runEpochs cfg bs nB shuffle noise shuf (e + 1) n
        (epochStep cfg bs nB shuffle noise shuf e s).1).1).heap.arrays = _
    rw [h2, h1, List.append_assoc]

/-- C8.  A call to `fit` with shuffling enabled works on a fresh copy of the
dataset (`data_x.copy()`), and every per-epoch reshuffle allocates another
fresh array (`data_x_cpy[inds]`): every array that existed in the heap
before the call — in particular the caller's dataset — is still there,
unchanged in shape, row order and content, after `fit` returns. -/
theorem C8_shuffle_preserves_caller (cfg : RBMCfg) (st : RBMState) (h : Heap)
    (dataRef : ℕ) (E : ℕ) (bs : Int) (noise : ℕ → ℕ → Noise)
    (shuf : ℕ → ℕ → ℕ) :
    ((fit cfg st h dataRef E bs true noise shuf).heap).arrays.take h.arrays.length
      = h.arrays := by
  obtain ⟨t, ht⟩ := runEpochs_heap_extend cfg bs (nBatchesOf (h.read dataRef).rows bs)
    true noise shuf E 0 (fitInitState h dataRef true st)
  have hinit : (fitInitState h dataRef true st).heap.arrays
      = h.arrays ++ [h.read dataRef] := rfl
  rw [hinit] at ht
  show ((runEpochs cfg bs (nBatchesOf (h.read dataRef).rows bs) true noise shuf
      0 E (fitInitState h dataRef true st)).1).heap.arrays.take h.arrays.length
      = h.arrays
  rw [ht, List.append_assoc, List.take_left]

end TFRBM
